import Mathlib

/-!
Shallow embedding of `src/Cleaner.py` (class `Clean`): a polars-based
proteomics cleaning pipeline.  A table is a list of column names (the
identifier column renamed to "protein" first) together with rows; each row
holds an optional identifier string (null = missing) and the intensity
cells, positionally aligned with the non-identifier columns.  Intensities
are modelled as `Option Int` (null = not measured): an exact-arithmetic
idealization of the numeric cells, adequate for every property below,
none of which depends on fractional or floating-point behaviour.  Polars three-valued
filter logic is embedded explicitly: a row whose filter predicate is null
is excluded, which is encoded by the `keep*` functions returning `false`
on a null identifier.
-/

/-- Failure modes of the embedded pipeline.  `schemaError` mirrors the
IndexError raised by `df.columns[0]` on a table with no columns,
`duplicateColumn` the polars DuplicateError raised by `rename` when the
target name already exists, and `step2TypeError` the Python TypeError
raised by `~None` in `__step2__` when there are no intensity columns. -/
inductive CleanError
  | schemaError
  | duplicateColumn
  | step2TypeError
deriving DecidableEq

/-- One row of the table: optional identifier plus intensity cells aligned
with the table's intensity columns. -/
structure Row where
  protein : Option String
  values : List (Option Int)
deriving DecidableEq

/-- The in-memory table threaded through the pipeline (post-rename). -/
structure Table where
  cols : List String
  rows : List Row
deriving DecidableEq

/-- The raw table as loaded, before the first column is renamed. -/
structure RawTable where
  cols : List String
  rows : List Row
deriving DecidableEq

/-- Reinterpret a pipeline output as a fresh input table. -/
def Table.toRaw (t : Table) : RawTable := ⟨t.cols, t.rows⟩

/-- The intensity columns: `[c for c in self.df.columns if c != "protein"]`. -/
def Table.valueCols (t : Table) : List String :=
  t.cols.filter (fun c => c != "protein")

/-- Embeds `Clean.__init__`: rename the first column to "protein".
`df.columns[0]` fails when there are no columns; polars `rename` fails when
a distinct column named "protein" already exists. -/
def mkClean (t : RawTable) : Except CleanError Table :=
  match t.cols with
  | [] => .error .schemaError
  | c :: rest =>
    if c = "protein" then .ok ⟨"protein" :: rest, t.rows⟩
    else if "protein" ∈ rest then .error .duplicateColumn
    else .ok ⟨"protein" :: rest, t.rows⟩

/-- Filter predicate of step 1: `protein.is_not_null() & (protein != "")`.
A null identifier gives `false & null = false` in polars Kleene logic. -/
def keep1 (r : Row) : Bool :=
  match r.protein with
  | none => false
  | some s => s != ""

/-- Step 1: drop rows with empty or null protein names. -/
def __step1__ (t : Table) : Table :=
  { t with rows := t.rows.filter keep1 }

/-- One conjunct of step 2's mask: `pl.col(c).is_null() | (pl.col(c) == 0)`. -/
def isZeroOrNull : Option Int → Bool
  | none => true
  | some x => decide (x = 0)

/-- Step 2's mask for one row: conjunction over all intensity cells. -/
def allZeroOrNull (r : Row) : Bool :=
  r.values.all isZeroOrNull

/-- Step 2: drop rows whose intensity values are all 0 or null.  When there
are no intensity columns the Python loop never assigns `mask`, and
`filter(~None)` raises a TypeError. -/
def __step2__ (t : Table) : Except CleanError Table :=
  if t.valueCols.isEmpty then .error .step2TypeError
  else .ok { t with rows := t.rows.filter (fun r => !(allZeroOrNull r)) }

/-- ASCII lowercase of a string, embedding `str.to_lowercase()` (the
identifiers this pipeline sees are ASCII). -/
def toLowerStr (s : String) : String :=
  ⟨s.data.map Char.toLower⟩

/-- Substring test, embedding `str.contains` with a literal pattern:
`needle` occurs contiguously inside `hay`. -/
def containsSubstr (hay needle : String) : Bool :=
  (List.range (hay.data.length + 1)).any
    (fun i => needle.data.isPrefixOf (hay.data.drop i))

/-- Filter predicate of step 3: lowercased identifier does not contain
"contam"; null identifier gives a null mask, hence exclusion. -/
def keep3 (r : Row) : Bool :=
  match r.protein with
  | none => false
  | some s => !(containsSubstr (toLowerStr s) "contam")

/-- Step 3: drop contamination proteins. -/
def __step3__ (t : Table) : Table :=
  { t with rows := t.rows.filter keep3 }

/-- Filter predicate of step 4: identifier does not contain
"RepID=unknown" (case-sensitive); null identifier is excluded. -/
def keep4 (r : Row) : Bool :=
  match r.protein with
  | none => false
  | some s => !(containsSubstr s "RepID=unknown")

/-- Step 4: drop proteins with unknown RepID. -/
def __step4__ (t : Table) : Table :=
  { t with rows := t.rows.filter keep4 }

/-- Attempted match of the regex `RepID=([^\x7c]+)` anchored at the start
of `l`: the literal "RepID=" followed by a non-empty capture of characters
other than the bar. -/
def captureAt (l : List Char) : Option (List Char) :=
  if "RepID=".data.isPrefixOf l then
    let cap := (l.drop 6).takeWhile (fun c => c != '|')
    if cap.isEmpty then none else some cap
  else none

/-- First capture group of `RepID=([^\x7c]+)` over the whole string,
embedding `str.extract(pattern, 1)`: scan left to right for the first
position where the pattern matches. -/
def extractRepID : List Char → Option (List Char)
  | [] => none
  | c :: rest =>
    match captureAt (c :: rest) with
    | some cap => some cap
    | none => extractRepID rest

/-- Step 5's per-row identifier rewrite: `when(starts_with "k77") .then
(extract) .otherwise(identity)`.  A failed extraction substitutes null; a
null identifier stays null under every branch. -/
def step5Protein : Option String → Option String
  | none => none
  | some s =>
    if "k77".data.isPrefixOf s.data then (extractRepID s.data).map String.mk
    else some s

/-- Step 5: rename proteins starting with "k77" to their RepID value. -/
def __step5__ (t : Table) : Table :=
  { t with rows := t.rows.map (fun r => { r with protein := step5Protein r.protein }) }

/-- The fixed metagenome blacklist of step 6. -/
def blacklist : List String :=
  [ "W1WC08_9ZZZZ", "W1WM01_9ZZZZ", "W1Y9K7_9ZZZZ", "W1YGV0_9ZZZZ",
    "W1YKP9_9ZZZZ", "W1YP67_9ZZZZ", "W1YRV8_9ZZZZ", "A0A0F9P276_9ZZZZ",
    "J9G8E8_9ZZZZ", "J9GD12_9ZZZZ" ]

/-- Filter predicate of step 6: the regex `"|".join(blacklist)` matches iff
some blacklist entry occurs as a substring; a null identifier gives a null
mask, hence exclusion. -/
def keep6 (r : Row) : Bool :=
  match r.protein with
  | none => false
  | some s => !(blacklist.any (fun b => containsSubstr s b))

/-- Step 6: remove specific metagenome RepIDs. -/
def __step6__ (t : Table) : Table :=
  { t with rows := t.rows.filter keep6 }

/-- Stable de-duplication: keys in first-occurrence order, embedding
`group_by(..., maintain_order=True)`.  `seen` accumulates keys already
emitted. -/
def firstOccurAux (seen : List (Option String)) : List (Option String) → List (Option String)
  | [] => []
  | k :: ks =>
    if k ∈ seen then firstOccurAux seen ks
    else k :: firstOccurAux (k :: seen) ks

/-- Group keys of step 7 in first-occurrence order. -/
def firstOccur (l : List (Option String)) : List (Option String) :=
  firstOccurAux [] l

/-- Aggregated intensities of one group: `pl.sum(c)` per intensity column,
which ignores nulls and returns 0 for an all-null column. -/
def groupSum (t : Table) (k : Option String) : List (Option Int) :=
  (List.range t.valueCols.length).map (fun j =>
    some (((t.rows.filter (fun x => x.protein == k)).map
      (fun x => (x.values.getD j none).getD 0)).sum))

/-- Step 7: collapse duplicate proteins by summing intensities.  The
`group_by/agg` result has the key column first, then the aggregated
intensity columns in their original order. -/
def __step7__ (t : Table) : Table :=
  { cols := "protein" :: t.valueCols,
    rows := (firstOccur (t.rows.map Row.protein)).map (fun k => ⟨k, groupSum t k⟩) }

/-- Embeds `Clean.run_filters`: the seven steps in order.  Step 2's
TypeError aborts the run; all later steps are total. -/
def run_filters (t : Table) : Except CleanError Table :=
  match __step2__ (__step1__ t) with
  | .error e => .error e
  | .ok t2 => .ok (__step7__ (__step6__ (__step5__ (__step4__ (__step3__ t2)))))

/-- Load (rename) then run the seven filters. -/
def pipeline (raw : RawTable) : Except CleanError Table :=
  match mkClean raw with
  | .error e => .error e
  | .ok t => run_filters t

instance {ε α : Type} [DecidableEq ε] [DecidableEq α] : DecidableEq (Except ε α) :=
  fun a b =>
  match a, b with
  | .error e, .error f =>
    if h : e = f then .isTrue (congrArg _ h)
    else .isFalse (fun he => h (Except.error.inj he))
  | .ok x, .ok y =>
    if h : x = y then .isTrue (congrArg _ h)
    else .isFalse (fun he => h (Except.ok.inj he))
  | .error _, .ok _ => .isFalse (fun he => Except.noConfusion he)
  | .ok _, .error _ => .isFalse (fun he => Except.noConfusion he)

/-- The end-to-end scenario table of spec section 8. -/
def scenarioTable : Table :=
  ⟨["protein", "S1", "S2"],
   [ ⟨some "", [some 5, some 0]⟩,
     ⟨some "CONTAM_A", [some 10, some 10]⟩,
     ⟨some "P1|RepID=unknown", [some 0, some 0]⟩,
     ⟨some "k77x|RepID=Q1|y", [some 2, some 0]⟩,
     ⟨some "Q1", [some 3, some 5]⟩,
     ⟨some "W1WC08_9ZZZZ", [some 9, some 9]⟩ ]⟩

/-- Modelled from the spec's description of stage 7 ordering (a second,
spec-side definition used to check the refinement): one key per distinct
identifier, each kept at its first occurrence, later occurrences erased. -/
def firstOccurSpec : List (Option String) → List (Option String)
  | [] => []
  | k :: ks => k :: firstOccurSpec (ks.filter (fun x => x != k))
termination_by l => l.length
decreasing_by
  simp only [List.length_cons]
  exact Nat.lt_succ_of_le (List.length_filter_le _ _)

/-- Invariant established by a successful run of the seven filters: the
identifier is present, non-empty, and matches none of the removal
markers. -/
def OutInv (r : Row) : Prop :=
  ∃ s, r.protein = some s ∧ s ≠ "" ∧
    containsSubstr (toLowerStr s) "contam" = false ∧
    containsSubstr s "RepID=unknown" = false ∧
    ∀ b ∈ blacklist, containsSubstr s b = false

theorem isPrefixOf_eq_true_iff (l₁ l₂ : List Char) :
    l₁.isPrefixOf l₂ = true ↔ ∃ t, l₂ = l₁ ++ t := by
  induction l₁ generalizing l₂ with
  | nil => simp [List.isPrefixOf]
  | cons a as ih =>
    cases l₂ with
    | nil => simp [List.isPrefixOf]
    | cons b bs =>
      rw [List.isPrefixOf_cons₂, Bool.and_eq_true]
      constructor
      · rintro ⟨hab, htl⟩
        obtain ⟨t, ht⟩ := (ih bs).mp htl
        exact ⟨t, by rw [ht, beq_iff_eq.mp hab, List.cons_append]⟩
      · rintro ⟨t, ht⟩
        injection ht with h1 h2
        exact ⟨beq_iff_eq.mpr h1.symm, (ih bs).mpr ⟨t, h2⟩⟩

theorem containsSubstr_eq_true_iff (hay needle : String) :
    containsSubstr hay needle = true ↔
      ∃ p q, hay.data = p ++ needle.data ++ q := by
  unfold containsSubstr
  rw [List.any_eq_true]
  constructor
  · rintro ⟨i, _, hpre⟩
    obtain ⟨t, ht⟩ := (isPrefixOf_eq_true_iff _ _).mp hpre
    refine ⟨hay.data.take i, t, ?_⟩
    calc hay.data = hay.data.take i ++ hay.data.drop i :=
          (List.take_append_drop i hay.data).symm
      _ = hay.data.take i ++ (needle.data ++ t) := by rw [ht]
      _ = hay.data.take i ++ needle.data ++ t := by rw [List.append_assoc]
  · rintro ⟨p, q, hd⟩
    refine ⟨p.length, List.mem_range.mpr ?_, ?_⟩
    · have : hay.data.length = p.length + (needle.data.length + q.length) := by
        rw [hd, List.append_assoc, List.length_append, List.length_append]
      omega
    · rw [hd, List.append_assoc, List.drop_left]
      exact (isPrefixOf_eq_true_iff _ _).mpr ⟨q, rfl⟩

theorem containsSubstr_append (p q mid : List Char) (sub : String)
    (h : containsSubstr ⟨mid⟩ sub = true) :
    containsSubstr ⟨p ++ mid ++ q⟩ sub = true := by
  rw [containsSubstr_eq_true_iff] at h ⊢
  obtain ⟨a, b, hab⟩ := h
  have hab2 : mid = a ++ sub.data ++ b := hab
  refine ⟨p ++ a, b ++ q, ?_⟩
  show p ++ mid ++ q = _
  rw [hab2]
  simp [List.append_assoc]

theorem containsSubstr_lower_append (p q mid : List Char) (sub : String)
    (h : containsSubstr (toLowerStr ⟨mid⟩) sub = true) :
    containsSubstr (toLowerStr ⟨p ++ mid ++ q⟩) sub = true := by
  rw [containsSubstr_eq_true_iff] at h ⊢
  obtain ⟨a, b, hab⟩ := h
  have hab2 : mid.map Char.toLower = a ++ sub.data ++ b := hab
  refine ⟨p.map Char.toLower ++ a, b ++ q.map Char.toLower, ?_⟩
  show (p ++ mid ++ q).map Char.toLower = _
  rw [List.map_append, List.map_append, hab2]
  simp [List.append_assoc]

theorem dropWhile_head_not (p : Char → Bool) :
    ∀ (l : List Char) (d : Char) (ds : List Char),
      l.dropWhile p = d :: ds → p d = false := by
  intro l
  induction l with
  | nil => intro d ds h; cases h
  | cons a tl ih =>
    intro d ds h
    rw [List.dropWhile_cons] at h
    by_cases hp : p a = true
    · rw [if_pos hp] at h
      exact ih d ds h
    · rw [if_neg hp] at h
      injection h with h1 _
      rw [← h1]
      exact Bool.not_eq_true _ ▸ hp

theorem captureAt_eq_some_iff (l cap : List Char) :
    captureAt l = some cap ↔
      ∃ post, l = "RepID=".data ++ cap ++ post ∧ cap ≠ [] ∧
        (∀ c ∈ cap, ¬ c = '|') ∧ (post = [] ∨ ∃ p2, post = '|' :: p2) := by
  unfold captureAt
  constructor
  · intro h
    by_cases hp : "RepID=".data.isPrefixOf l = true
    · rw [if_pos hp] at h
      obtain ⟨rest, hrest⟩ := (isPrefixOf_eq_true_iff _ _).mp hp
      have hdrop : l.drop 6 = rest := by
        rw [hrest]
        exact List.drop_left' (by rfl)
      rw [hdrop] at h
      by_cases he : (rest.takeWhile (fun c => c != '|')).isEmpty = true
      · rw [if_pos he] at h
        cases h
      · rw [if_neg he] at h
        injection h with hcap
        refine ⟨rest.dropWhile (fun c => c != '|'), ?_, ?_, ?_, ?_⟩
        · rw [hrest, ← hcap, List.append_assoc, List.takeWhile_append_dropWhile]
        · rw [← hcap]
          have hf : (rest.takeWhile (fun c => c != '|')).isEmpty = false := by
            simpa using he
          exact List.isEmpty_eq_false.mp hf
        · intro c hc
          rw [← hcap] at hc
          have := List.mem_takeWhile_imp hc
          exact bne_iff_ne.mp this
        · cases hdw : rest.dropWhile (fun c => c != '|') with
          | nil => exact Or.inl rfl
          | cons d ds =>
            refine Or.inr ⟨ds, ?_⟩
            have hd : (d != '|') = false := dropWhile_head_not _ rest d ds hdw
            have hdq : d = '|' := by simpa using hd
            rw [hdq]
    · rw [if_neg hp] at h
      cases h
  · rintro ⟨post, hdec, hne, hbar, hpost⟩
    have hp : "RepID=".data.isPrefixOf l = true :=
      (isPrefixOf_eq_true_iff _ _).mpr ⟨cap ++ post, by rw [hdec, List.append_assoc]⟩
    rw [if_pos hp]
    have hdrop : l.drop 6 = cap ++ post := by
      rw [hdec, List.append_assoc]
      exact List.drop_left' (by rfl)
    rw [hdrop]
    have htw : (cap ++ post).takeWhile (fun c => c != '|') = cap := by
      rw [List.takeWhile_append_of_pos (fun a ha => bne_iff_ne.mpr (hbar a ha))]
      rcases hpost with h0 | ⟨p2, hp2⟩
      · rw [h0]
        simp
      · rw [hp2]
        rw [List.takeWhile_cons_of_neg (by simp)]
        simp
    rw [htw]
    rw [if_neg (by simp [hne])]

theorem captureAt_ne_none (l cap2 post2 : List Char)
    (h : l = "RepID=".data ++ cap2 ++ post2) (h2 : cap2 ≠ [])
    (h3 : ∀ c ∈ cap2, ¬ c = '|') : captureAt l ≠ none := by
  unfold captureAt
  have hp : "RepID=".data.isPrefixOf l = true :=
    (isPrefixOf_eq_true_iff _ _).mpr ⟨cap2 ++ post2, by rw [h, List.append_assoc]⟩
  rw [if_pos hp]
  have hdrop : l.drop 6 = cap2 ++ post2 := by
    rw [h, List.append_assoc]
    exact List.drop_left' (by rfl)
  rw [hdrop]
  cases cap2 with
  | nil => exact absurd rfl h2
  | cons d ds =>
    intro hcon
    simp only [List.cons_append,
      List.takeWhile_cons_of_pos (bne_iff_ne.mpr (h3 d (List.mem_cons_self d ds)))]
      at hcon
    simp at hcon
    exact h3 d (List.mem_cons_self d ds) hcon

theorem extractRepID_sound (l : List Char) (cap : List Char)
    (h : extractRepID l = some cap) :
    ∃ pre post, l = pre ++ "RepID=".data ++ cap ++ post ∧ cap ≠ [] ∧
      (∀ c ∈ cap, ¬ c = '|') ∧ (post = [] ∨ ∃ p2, post = '|' :: p2) ∧
      ∀ pre2 cap2 post2, l = pre2 ++ "RepID=".data ++ cap2 ++ post2 →
        cap2 ≠ [] → (∀ c ∈ cap2, ¬ c = '|') → pre.length ≤ pre2.length := by
  induction l with
  | nil => cases h
  | cons c rest ih =>
    rw [extractRepID] at h
    cases hca : captureAt (c :: rest) with
    | some cap0 =>
      rw [hca] at h
      injection h with hc
      subst hc
      obtain ⟨post, hdec, hne, hbar, hpost⟩ := (captureAt_eq_some_iff _ _).mp hca
      refine ⟨[], post, by simpa using hdec, hne, hbar, hpost, ?_⟩
      intro pre2 cap2 post2 _ _ _
      exact Nat.zero_le _
    | none =>
      rw [hca] at h
      obtain ⟨pre', post', hdec, hne, hbar, hpost, hmin⟩ := ih h
      refine ⟨c :: pre', post', by rw [List.cons_append, hdec]; simp [List.append_assoc], hne, hbar, hpost, ?_⟩
      intro pre2 cap2 post2 heq hne2 hbar2
      cases pre2 with
      | nil =>
        exfalso
        apply captureAt_ne_none (c :: rest) cap2 post2 (by simpa using heq) hne2 hbar2
        exact hca
      | cons c2 pre2' =>
        rw [List.length_cons, List.length_cons]
        apply Nat.succ_le_succ
        have h4 : rest = pre2' ++ "RepID=".data ++ cap2 ++ post2 := by
          have h3' : c :: rest = c2 :: (pre2' ++ "RepID=".data ++ cap2 ++ post2) := by
            rw [heq]; simp [List.append_assoc]
          injection h3' with _ h5
        exact hmin pre2' cap2 post2 h4 hne2 hbar2

theorem extractRepID_some_contains (l cap : List Char)
    (h : extractRepID l = some cap) : containsSubstr ⟨l⟩ "RepID=" = true := by
  obtain ⟨pre, post, hdec, _, _, _, _⟩ := extractRepID_sound l cap h
  rw [containsSubstr_eq_true_iff]
  exact ⟨pre, cap ++ post, by rw [hdec]; simp [List.append_assoc]⟩

theorem mem_firstOccurAux (l : List (Option String)) :
    ∀ (seen : List (Option String)) (k : Option String),
      k ∈ firstOccurAux seen l ↔ k ∈ l ∧ k ∉ seen := by
  induction l with
  | nil => intro seen k; simp [firstOccurAux]
  | cons a tl ih =>
    intro seen k
    by_cases ha : a ∈ seen
    · rw [firstOccurAux, if_pos ha, ih seen k]
      by_cases hk : k = a
      · subst hk
        simp [List.mem_cons, ha]
      · simp [List.mem_cons, hk]
    · rw [firstOccurAux, if_neg ha]
      by_cases hk : k = a
      · subst hk
        simp [List.mem_cons, ha]
      · simp only [List.mem_cons, hk, false_or, ih (a :: seen) k]

theorem firstOccurAux_sublist (l : List (Option String)) :
    ∀ seen, (firstOccurAux seen l).Sublist l := by
  induction l with
  | nil => intro seen; rw [firstOccurAux]
  | cons a tl ih =>
    intro seen
    by_cases ha : a ∈ seen
    · rw [firstOccurAux, if_pos ha]
      exact (ih seen).trans (List.sublist_cons_self a tl)
    · rw [firstOccurAux, if_neg ha]
      exact (ih (a :: seen)).cons₂ a

theorem firstOccurAux_nodup (l : List (Option String)) :
    ∀ seen, (firstOccurAux seen l).Nodup := by
  induction l with
  | nil => intro seen; rw [firstOccurAux]; exact List.nodup_nil
  | cons a tl ih =>
    intro seen
    by_cases ha : a ∈ seen
    · rw [firstOccurAux, if_pos ha]
      exact ih seen
    · rw [firstOccurAux, if_neg ha]
      refine List.nodup_cons.mpr ⟨fun hmem => ?_, ih (a :: seen)⟩
      exact ((mem_firstOccurAux tl (a :: seen) a).mp hmem).2 (List.mem_cons_self a seen)

theorem firstOccurAux_eq_self (l : List (Option String)) :
    ∀ seen, l.Nodup → (∀ k ∈ l, k ∉ seen) → firstOccurAux seen l = l := by
  induction l with
  | nil => intro seen _ _; rfl
  | cons a tl ih =>
    intro seen hnd hdisj
    have ha : a ∉ seen := hdisj a (List.mem_cons_self a tl)
    rw [firstOccurAux, if_neg ha]
    congr 1
    apply ih (a :: seen) (List.nodup_cons.mp hnd).2
    intro k hk hks
    rcases List.mem_cons.mp hks with he | hs
    · exact (List.nodup_cons.mp hnd).1 (he ▸ hk)
    · exact hdisj k (List.mem_cons_of_mem a hk) hs

theorem firstOccurAux_eq_spec (l : List (Option String)) :
    ∀ seen, firstOccurAux seen l =
      firstOccurSpec (l.filter (fun x => decide (x ∉ seen))) := by
  induction l with
  | nil => intro seen; simp [firstOccurAux, firstOccurSpec]
  | cons a tl ih =>
    intro seen
    by_cases ha : a ∈ seen
    · rw [firstOccurAux, if_pos ha, List.filter_cons, if_neg (by simp [ha])]
      exact ih seen
    · rw [firstOccurAux, if_neg ha, List.filter_cons, if_pos (by simp [ha])]
      rw [firstOccurSpec, ih (a :: seen)]
      congr 1
      rw [List.filter_filter]
      congr 1
      apply List.filter_congr
      intro x _
      by_cases h1 : x = a
      · simp [h1]
      · by_cases h2 : x ∈ seen <;> simp [h1, h2, List.mem_cons]

theorem firstOccur_eq_spec (l : List (Option String)) :
    firstOccur l = firstOccurSpec l := by
  rw [firstOccur, firstOccurAux_eq_spec]
  congr 1
  exact List.filter_eq_self.mpr (fun a _ => by simp)

theorem rangeMap_getD {α : Type} (n : Nat) (f : Nat → Option α) (j : Nat)
    (h : j < n) : ((List.range n).map f).getD j none = f j := by
  rw [List.getD_eq_getElem?_getD, List.getElem?_map, List.getElem?_range h]
  rfl

theorem map_eq_self_of {α : Type} (l : List α) (f : α → α)
    (h : ∀ a ∈ l, f a = a) : l.map f = l := by
  induction l with
  | nil => rfl
  | cons a tl ih =>
    rw [List.map_cons, h a (List.mem_cons_self a tl),
      ih (fun x hx => h x (List.mem_cons_of_mem a hx))]

theorem filter_protein_eq_singleton (l : List Row) (r : Row)
    (hnd : (l.map Row.protein).Nodup) (hr : r ∈ l) :
    l.filter (fun x => x.protein == r.protein) = [r] := by
  induction l with
  | nil => cases hr
  | cons a tl ih =>
    rw [List.map_cons, List.nodup_cons] at hnd
    obtain ⟨hna, hnd'⟩ := hnd
    rcases List.mem_cons.mp hr with he | hmem
    · subst he
      rw [List.filter_cons, if_pos (by simp)]
      have : tl.filter (fun x => x.protein == r.protein) = [] := by
        rw [List.filter_eq_nil_iff]
        intro x hx hbeq
        exact hna (beq_iff_eq.mp hbeq ▸ List.mem_map_of_mem Row.protein hx)
      rw [this]
    · rw [List.filter_cons, if_neg ?_, ih hnd' hmem]
      intro hbeq
      have : a.protein = r.protein := beq_iff_eq.mp (by simpa using hbeq)
      exact hna (this ▸ List.mem_map_of_mem Row.protein hmem)

theorem step1_cols (t : Table) : (__step1__ t).cols = t.cols := rfl

theorem step3_cols (t : Table) : (__step3__ t).cols = t.cols := rfl

theorem step4_cols (t : Table) : (__step4__ t).cols = t.cols := rfl

theorem step5_cols (t : Table) : (__step5__ t).cols = t.cols := rfl

theorem step6_cols (t : Table) : (__step6__ t).cols = t.cols := rfl

theorem step7_cols (t : Table) : (__step7__ t).cols = "protein" :: t.valueCols := rfl

theorem valueCols_congr (t u : Table) (h : t.cols = u.cols) :
    t.valueCols = u.valueCols := by
  rw [Table.valueCols, Table.valueCols, h]

theorem valueCols_filter_self (t : Table) :
    t.valueCols.filter (fun c => c != "protein") = t.valueCols := by
  apply List.filter_eq_self.mpr
  intro a ha
  exact (List.mem_filter.mp ha).2

theorem step7_valueCols (t : Table) : (__step7__ t).valueCols = t.valueCols := by
  show (("protein" :: t.valueCols).filter (fun c => c != "protein")) = t.valueCols
  rw [List.filter_cons, if_neg (by simp)]
  exact valueCols_filter_self t

theorem step2_ok_iff (t t2 : Table) :
    __step2__ t = .ok t2 ↔
      t.valueCols ≠ [] ∧
        t2 = { t with rows := t.rows.filter (fun r => !(allZeroOrNull r)) } := by
  unfold __step2__
  by_cases he : t.valueCols.isEmpty = true
  · rw [if_pos he]
    simp [List.isEmpty_iff.mp he]
  · rw [if_neg he]
    have : t.valueCols ≠ [] := by simpa using he
    simp [this, eq_comm]

theorem step7_keys (t : Table) :
    (__step7__ t).rows.map Row.protein = firstOccur (t.rows.map Row.protein) := by
  show ((firstOccur (t.rows.map Row.protein)).map
      (fun k => (⟨k, groupSum t k⟩ : Row))).map Row.protein = _
  rw [List.map_map]
  exact List.map_id _

theorem step7_rows_shape (t : Table) (r : Row) (h : r ∈ (__step7__ t).rows) :
    r = ⟨r.protein, groupSum t r.protein⟩ ∧ r.protein ∈ t.rows.map Row.protein := by
  obtain ⟨k, hk, hr⟩ := List.mem_map.mp h
  constructor
  · rw [← hr]
  · rw [← hr]
    show k ∈ _
    have := (mem_firstOccurAux (t.rows.map Row.protein) [] k).mp hk
    exact this.1

theorem run_filters_ok (t t' : Table) (h : run_filters t = .ok t') :
    ∃ t2, __step2__ (__step1__ t) = .ok t2 ∧
      t' = __step7__ (__step6__ (__step5__ (__step4__ (__step3__ t2)))) := by
  unfold run_filters at h
  cases h2 : __step2__ (__step1__ t) with
  | error e => rw [h2] at h; cases h
  | ok t2 =>
    rw [h2] at h
    injection h with h3
    exact ⟨t2, rfl, h3.symm⟩

theorem run_filters_cols (t t' : Table) (h : run_filters t = .ok t') :
    t'.cols = "protein" :: t.valueCols ∧ t.valueCols ≠ [] := by
  obtain ⟨t2, h2, h7⟩ := run_filters_ok t t' h
  obtain ⟨hvc, ht2⟩ := (step2_ok_iff _ _).mp h2
  have hc2 : t2.cols = t.cols := by rw [ht2]; rfl
  have hv6 : (__step6__ (__step5__ (__step4__ (__step3__ t2)))).valueCols
      = t.valueCols := by
    apply valueCols_congr
    rw [step6_cols, step5_cols, step4_cols, step3_cols, hc2]
  constructor
  · rw [h7, step7_cols, hv6]
  · exact hvc

theorem contains_of_data_decomp (s : String) (p mid q : List Char) (sub : String)
    (hd : s.data = p ++ mid ++ q)
    (h : containsSubstr ⟨mid⟩ sub = true) : containsSubstr s sub = true := by
  rw [containsSubstr_eq_true_iff] at h ⊢
  obtain ⟨a, b, hab⟩ := h
  have hab2 : mid = a ++ sub.data ++ b := hab
  exact ⟨p ++ a, b ++ q, by rw [hd, hab2]; simp [List.append_assoc]⟩

theorem contains_lower_of_data_decomp (s : String) (p mid q : List Char)
    (sub : String) (hd : s.data = p ++ mid ++ q)
    (h : containsSubstr (toLowerStr ⟨mid⟩) sub = true) :
    containsSubstr (toLowerStr s) sub = true := by
  rw [containsSubstr_eq_true_iff] at h ⊢
  obtain ⟨a, b, hab⟩ := h
  have hab2 : mid.map Char.toLower = a ++ sub.data ++ b := hab
  refine ⟨p.map Char.toLower ++ a, b ++ q.map Char.toLower, ?_⟩
  show s.data.map Char.toLower = _
  rw [hd, List.map_append, List.map_append, hab2]
  simp [List.append_assoc]

theorem keep1_eq_true_iff (r : Row) :
    keep1 r = true ↔ ∃ s, r.protein = some s ∧ s ≠ "" := by
  cases hp : r.protein with
  | none => simp [keep1, hp]
  | some s => simp [keep1, hp]

theorem keep3_eq_true_iff (r : Row) :
    keep3 r = true ↔
      ∃ s, r.protein = some s ∧ containsSubstr (toLowerStr s) "contam" = false := by
  cases hp : r.protein with
  | none => simp [keep3, hp]
  | some s => simp [keep3, hp]

theorem keep4_eq_true_iff (r : Row) :
    keep4 r = true ↔
      ∃ s, r.protein = some s ∧ containsSubstr s "RepID=unknown" = false := by
  cases hp : r.protein with
  | none => simp [keep4, hp]
  | some s => simp [keep4, hp]

theorem keep6_eq_true_iff (r : Row) :
    keep6 r = true ↔
      ∃ s, r.protein = some s ∧ ∀ b ∈ blacklist, containsSubstr s b = false := by
  cases hp : r.protein with
  | none => simp [keep6, hp]
  | some s =>
    simp only [keep6, hp, Bool.not_eq_true', List.any_eq_false, Option.some.injEq]
    constructor
    · intro h
      refine ⟨s, rfl, fun b hb => ?_⟩
      simpa using h b hb
    · rintro ⟨s2, hq, h⟩
      subst hq
      intro b hb
      simp [h b hb]

theorem filters_inv (t2 : Table) (ht2 : ∀ r ∈ t2.rows, keep1 r = true) :
    ∀ r ∈ (__step6__ (__step5__ (__step4__ (__step3__ t2)))).rows, OutInv r := by
  intro r hr
  obtain ⟨hr5, hk6⟩ := List.mem_filter.mp hr
  obtain ⟨r4, hr4, hrf⟩ := List.mem_map.mp hr5
  obtain ⟨hr3, hk4⟩ := List.mem_filter.mp hr4
  obtain ⟨hr2, hk3⟩ := List.mem_filter.mp hr3
  obtain ⟨s, hps, hse⟩ := (keep1_eq_true_iff r4).mp (ht2 r4 hr2)
  obtain ⟨s3, hps3, hcontam⟩ := (keep3_eq_true_iff r4).mp hk3
  obtain ⟨s4, hps4, hunk⟩ := (keep4_eq_true_iff r4).mp hk4
  rw [hps] at hps3 hps4
  injection hps3 with hs3
  injection hps4 with hs4
  subst hs3
  subst hs4
  obtain ⟨s6, hps6, hblack⟩ := (keep6_eq_true_iff r).mp hk6
  have hpr : r.protein = step5Protein (some s) := by
    rw [← hrf, ← hps]
  rw [hps6] at hpr
  by_cases hk77 : ("k77".data.isPrefixOf s.data) = true
  · rw [step5Protein, if_pos hk77] at hpr
    obtain ⟨cap, hcap, hmk⟩ := Option.map_eq_some'.mp hpr.symm
    obtain ⟨pre, post, hdec, hcne, _, _, _⟩ := extractRepID_sound s.data cap hcap
    refine ⟨s6, hps6, ?_, ?_, ?_, hblack⟩
    · rw [← hmk]
      intro hcon
      apply hcne
      exact congrArg String.data hcon
    · by_contra hcon
      rw [Bool.not_eq_false] at hcon
      have hbig : containsSubstr (toLowerStr s) "contam" = true := by
        apply contains_lower_of_data_decomp s (pre ++ "RepID=".data) cap post
          "contam" hdec
        rw [show (⟨cap⟩ : String) = s6 from hmk]
        exact hcon
      rw [hcontam] at hbig
      cases hbig
    · by_contra hcon
      rw [Bool.not_eq_false] at hcon
      have hbig : containsSubstr s "RepID=unknown" = true := by
        apply contains_of_data_decomp s (pre ++ "RepID=".data) cap post
          "RepID=unknown" hdec
        rw [show (⟨cap⟩ : String) = s6 from hmk]
        exact hcon
      rw [hunk] at hbig
      cases hbig
  · rw [step5Protein, if_neg hk77] at hpr
    injection hpr with hss
    subst hss
    exact ⟨s6, hps6, hse, hcontam, hunk, hblack⟩

theorem step1_id (u : Table) (h : ∀ r ∈ u.rows, OutInv r) : __step1__ u = u := by
  show ({ u with rows := u.rows.filter keep1 } : Table) = u
  have hf : u.rows.filter keep1 = u.rows := by
    apply List.filter_eq_self.mpr
    intro r hr
    obtain ⟨s, hp, hne, _, _, _⟩ := h r hr
    exact (keep1_eq_true_iff r).mpr ⟨s, hp, hne⟩
  rw [hf]

theorem step3_id (u : Table) (h : ∀ r ∈ u.rows, OutInv r) : __step3__ u = u := by
  show ({ u with rows := u.rows.filter keep3 } : Table) = u
  have hf : u.rows.filter keep3 = u.rows := by
    apply List.filter_eq_self.mpr
    intro r hr
    obtain ⟨s, hp, _, hc, _, _⟩ := h r hr
    exact (keep3_eq_true_iff r).mpr ⟨s, hp, hc⟩
  rw [hf]

theorem step4_id (u : Table) (h : ∀ r ∈ u.rows, OutInv r) : __step4__ u = u := by
  show ({ u with rows := u.rows.filter keep4 } : Table) = u
  have hf : u.rows.filter keep4 = u.rows := by
    apply List.filter_eq_self.mpr
    intro r hr
    obtain ⟨s, hp, _, _, hu, _⟩ := h r hr
    exact (keep4_eq_true_iff r).mpr ⟨s, hp, hu⟩
  rw [hf]

theorem step6_id (u : Table) (h : ∀ r ∈ u.rows, OutInv r) : __step6__ u = u := by
  show ({ u with rows := u.rows.filter keep6 } : Table) = u
  have hf : u.rows.filter keep6 = u.rows := by
    apply List.filter_eq_self.mpr
    intro r hr
    obtain ⟨s, hp, _, _, _, hb⟩ := h r hr
    exact (keep6_eq_true_iff r).mpr ⟨s, hp, hb⟩
  rw [hf]

theorem step5_id (u : Table)
    (h : ∀ r ∈ u.rows, ∀ s, r.protein = some s →
      "k77".data.isPrefixOf s.data = false) : __step5__ u = u := by
  have hm : u.rows.map (fun r => { r with protein := step5Protein r.protein })
      = u.rows := by
    apply map_eq_self_of
    intro r hr
    cases hp : r.protein with
    | none =>
      simp only [step5Protein]
      rw [← hp]
    | some s =>
      simp only [step5Protein]
      rw [if_neg (by simp [h r hr s hp]), ← hp]
  unfold __step5__
  rw [hm]

theorem step2_id (u : Table) (hvc : u.valueCols ≠ [])
    (hnz : ∀ r ∈ u.rows, allZeroOrNull r = false) : __step2__ u = .ok u := by
  rw [step2_ok_iff]
  refine ⟨hvc, ?_⟩
  have hf : u.rows.filter (fun r => !(allZeroOrNull r)) = u.rows := by
    apply List.filter_eq_self.mpr
    intro r hr
    rw [hnz r hr]
    rfl
  rw [hf]

theorem step7_id (u : Table)
    (hnodup : (u.rows.map Row.protein).Nodup)
    (hcols : u.cols = "protein" :: u.valueCols)
    (hvals : ∀ r ∈ u.rows, ∃ g : Nat → Int,
      r.values = (List.range u.valueCols.length).map (fun j => some (g j))) :
    __step7__ u = u := by
  have hkeys : firstOccur (u.rows.map Row.protein) = u.rows.map Row.protein :=
    firstOccurAux_eq_self _ [] hnodup (by simp)
  have hrows : (firstOccur (u.rows.map Row.protein)).map
      (fun k => (⟨k, groupSum u k⟩ : Row)) = u.rows := by
    rw [hkeys, List.map_map]
    apply map_eq_self_of
    intro r hr
    show (⟨r.protein, groupSum u r.protein⟩ : Row) = r
    obtain ⟨g, hg⟩ := hvals r hr
    have hsum : groupSum u r.protein = r.values := by
      rw [groupSum, filter_protein_eq_singleton u.rows r hnodup hr, hg]
      apply List.map_congr_left
      intro j hj
      have hj' : j < u.valueCols.length := List.mem_range.mp hj
      simp only [List.map_cons, List.map_nil, List.sum_cons, List.sum_nil,
        add_zero]
      rw [hg, rangeMap_getD _ _ j hj']
      rfl
    rw [hsum]
  have hstep : __step7__ u = ⟨"protein" :: u.valueCols, u.rows⟩ := by
    show (⟨"protein" :: u.valueCols, (firstOccur (u.rows.map Row.protein)).map
      (fun k => (⟨k, groupSum u k⟩ : Row))⟩ : Table) = _
    rw [hrows]
  rw [hstep, ← hcols]

theorem run_filters_out (t t' : Table) (h : run_filters t = .ok t') :
    (∀ r ∈ t'.rows, OutInv r) ∧
    (∀ r ∈ t'.rows, ∃ g : Nat → Int,
      r.values = (List.range t'.valueCols.length).map (fun j => some (g j))) ∧
    (t'.rows.map Row.protein).Nodup ∧
    t'.cols = "protein" :: t'.valueCols ∧ t'.valueCols ≠ [] := by
  obtain ⟨t2, h2, h7⟩ := run_filters_ok t t' h
  obtain ⟨hvc1, ht2⟩ := (step2_ok_iff _ _).mp h2
  have ht2keep : ∀ r ∈ t2.rows, keep1 r = true := by
    intro r hr
    rw [ht2] at hr
    have hr1 : r ∈ (__step1__ t).rows := (List.mem_filter.mp hr).1
    exact (List.mem_filter.mp hr1).2
  have hinv6 := filters_inv t2 ht2keep
  set t6 := __step6__ (__step5__ (__step4__ (__step3__ t2))) with ht6
  have hvct : t'.valueCols = t6.valueCols := by
    rw [h7]
    exact step7_valueCols t6
  refine ⟨?_, ?_, ?_, ?_, ?_⟩
  · intro r hr
    rw [h7] at hr
    obtain ⟨hshape, hmem⟩ := step7_rows_shape t6 r hr
    obtain ⟨r6, hr6, hpr6⟩ := List.mem_map.mp hmem
    obtain ⟨s, hp, hrest⟩ := hinv6 r6 hr6
    exact ⟨s, by rw [hpr6] at hp; exact hp, hrest⟩
  · intro r hr
    rw [h7] at hr
    obtain ⟨hshape, _⟩ := step7_rows_shape t6 r hr
    refine ⟨fun j => ((t6.rows.filter
      (fun x => x.protein == r.protein)).map
        (fun x => (x.values.getD j none).getD 0)).sum, ?_⟩
    have hv : r.values = groupSum t6 r.protein := by
      rw [hshape]
    rw [hv, hvct]
    rfl
  · rw [h7, step7_keys]
    exact firstOccurAux_nodup _ []
  · rw [h7, step7_cols, step7_valueCols]
  · rw [hvct]
    have : t6.valueCols = (__step1__ t).valueCols := by
      apply valueCols_congr
      rw [step6_cols, step5_cols, step4_cols, step3_cols, ht2]
    rw [this]
    exact hvc1

theorem mkClean_nil (rows : List Row) :
    mkClean ⟨[], rows⟩ = .error CleanError.schemaError := rfl

theorem mkClean_cons (c : String) (rest : List String) (rows : List Row) :
    mkClean ⟨c :: rest, rows⟩ =
      if c = "protein" then .ok ⟨"protein" :: rest, rows⟩
      else if "protein" ∈ rest then .error CleanError.duplicateColumn
      else .ok ⟨"protein" :: rest, rows⟩ := rfl

theorem pipeline_ok_of (raw : RawTable) (t0 : Table)
    (h : mkClean raw = .ok t0) : pipeline raw = run_filters t0 := by
  unfold pipeline
  rw [h]

theorem pipeline_error_of (raw : RawTable) (e : CleanError)
    (h : mkClean raw = .error e) : pipeline raw = .error e := by
  unfold pipeline
  rw [h]

theorem run_filters_not_schema (t : Table) :
    run_filters t ≠ .error CleanError.schemaError := by
  unfold run_filters
  cases h2 : __step2__ (__step1__ t) with
  | error e =>
    have he : e = CleanError.step2TypeError := by
      unfold __step2__ at h2
      by_cases hie : (__step1__ t).valueCols.isEmpty = true
      · rw [if_pos hie] at h2
        injection h2 with h3
        exact h3.symm
      · rw [if_neg hie] at h2
        cases h2
    rw [he]
    intro hcon
    injection hcon with h4
    cases h4
  | ok t2 =>
    intro hcon
    cases hcon

theorem filter_ne_protein (rest : List String) (hnp : "protein" ∉ rest) :
    ("protein" :: rest).filter (fun c => c != "protein") = rest := by
  rw [List.filter_cons, if_neg (by simp)]
  apply List.filter_eq_self.mpr
  intro a ha
  have hne : a ≠ "protein" := fun hcon => hnp (hcon ▸ ha)
  simp [hne]

theorem pipeline_cols_core (rest : List String) (rows : List Row) (t' : Table)
    (hnp : "protein" ∉ rest)
    (h : run_filters ⟨"protein" :: rest, rows⟩ = .ok t') :
    t'.cols = "protein" :: rest ∧ t'.valueCols = rest := by
  have hcols := (run_filters_cols _ _ h).1
  have hvc : (⟨"protein" :: rest, rows⟩ : Table).valueCols = rest :=
    filter_ne_protein rest hnp
  have hc2 : t'.cols = "protein" :: rest := by rw [hcols, hvc]
  refine ⟨hc2, ?_⟩
  show t'.cols.filter (fun c => c != "protein") = rest
  rw [hc2]
  exact filter_ne_protein rest hnp

theorem isZeroOrNull_eq_true_iff (v : Option Int) :
    isZeroOrNull v = true ↔ (v = none ∨ v = some 0) := by
  cases v <;> simp [isZeroOrNull]

theorem allZeroOrNull_eq_false_iff (r : Row) :
    allZeroOrNull r = false ↔ ∃ v ∈ r.values, ¬(v = none ∨ v = some 0) := by
  show r.values.all isZeroOrNull = false ↔ _
  rw [List.all_eq_false]
  constructor
  · rintro ⟨v, hv, hnz⟩
    exact ⟨v, hv, fun hcon => hnz ((isZeroOrNull_eq_true_iff v).mpr hcon)⟩
  · rintro ⟨v, hv, hnz⟩
    exact ⟨v, hv, fun hcon => hnz ((isZeroOrNull_eq_true_iff v).mp hcon)⟩

/-- C1: running the seven stages in order on the section-8 scenario table
(empty identifier with [5,0]; "CONTAM_A" with [10,10]; "P1|RepID=unknown"
with [0,0]; "k77x|RepID=Q1|y" with [2,0]; "Q1" with [3,5]; "W1WC08_9ZZZZ"
with [9,9]) produces exactly one row "Q1" with S1 = 5 and S2 = 5. -/
theorem claim_C1_end_to_end :
    run_filters scenarioTable =
      .ok ⟨["protein", "S1", "S2"], [⟨some "Q1", [some 5, some 5]⟩]⟩ := by
  rfl

/-- C7: the pipeline fails with the schema error exactly when the input has
no columns, the failure occurs in initialization before any stage runs, and
after renaming the first column an identifier column named "protein" always
exists (so the spec's second failure condition can never fire). -/
theorem claim_C7_schema (raw : RawTable) :
    (pipeline raw = .error CleanError.schemaError ↔ raw.cols = []) ∧
    ∀ t0, mkClean raw = .ok t0 → t0.cols.head? = some "protein" := by
  obtain ⟨cols, rows⟩ := raw
  constructor
  · constructor
    · intro h
      cases cols with
      | nil => rfl
      | cons c rest =>
        exfalso
        by_cases hcp : c = "protein"
        · have hm : mkClean ⟨c :: rest, rows⟩ = .ok ⟨"protein" :: rest, rows⟩ := by
            rw [mkClean_cons, if_pos hcp]
          rw [pipeline_ok_of _ _ hm] at h
          exact run_filters_not_schema _ h
        · by_cases hpr : "protein" ∈ rest
          · have hm : mkClean ⟨c :: rest, rows⟩
                = .error CleanError.duplicateColumn := by
              rw [mkClean_cons, if_neg hcp, if_pos hpr]
            rw [pipeline_error_of _ _ hm] at h
            injection h with he
            cases he
          · have hm : mkClean ⟨c :: rest, rows⟩ = .ok ⟨"protein" :: rest, rows⟩ := by
              rw [mkClean_cons, if_neg hcp, if_neg hpr]
            rw [pipeline_ok_of _ _ hm] at h
            exact run_filters_not_schema _ h
    · intro h
      have h2 : cols = [] := h
      subst h2
      exact pipeline_error_of _ _ (mkClean_nil rows)
  · intro t0 h
    cases cols with
    | nil =>
      rw [mkClean_nil] at h
      cases h
    | cons c rest =>
      rw [mkClean_cons] at h
      by_cases hcp : c = "protein"
      · rw [if_pos hcp] at h
        injection h with ht
        rw [← ht]
        rfl
      · rw [if_neg hcp] at h
        by_cases hpr : "protein" ∈ rest
        · rw [if_pos hpr] at h
          cases h
        · rw [if_neg hpr] at h
          injection h with ht
          rw [← ht]
          rfl

/-- Witness for C7 at the concrete empty-column input. -/
theorem claim_C7_witness :
    pipeline ⟨[], []⟩ = .error CleanError.schemaError :=
  (claim_C7_schema ⟨[], []⟩).1.mpr rfl

/-- C8: stage 1 removes exactly the rows whose identifier is null or equals
the empty string; the decision is independent of the intensity values; a
whitespace-only identifier such as " " is retained. -/
theorem claim_C8_step1 (t : Table) :
    (∀ r, r ∈ (__step1__ t).rows ↔
      r ∈ t.rows ∧ r.protein ≠ none ∧ r.protein ≠ some "") ∧
    (∀ (p : Option String) (vs1 vs2 : List (Option Int)),
      keep1 ⟨p, vs1⟩ = keep1 ⟨p, vs2⟩) ∧
    (__step1__ ⟨["protein", "S1"], [⟨some " ", [some 1]⟩]⟩).rows
      = [⟨some " ", [some 1]⟩] := by
  refine ⟨?_, ?_, by rfl⟩
  · intro r
    show r ∈ t.rows.filter keep1 ↔ _
    rw [List.mem_filter]
    constructor
    · rintro ⟨hm, hk⟩
      obtain ⟨s, hp, hne⟩ := (keep1_eq_true_iff r).mp hk
      refine ⟨hm, by rw [hp]; simp, ?_⟩
      rw [hp]
      intro hcon
      injection hcon with hs
      exact hne hs
    · rintro ⟨hm, hnn, hne⟩
      refine ⟨hm, ?_⟩
      cases hp : r.protein with
      | none => exact absurd hp hnn
      | some s =>
        apply (keep1_eq_true_iff r).mpr
        refine ⟨s, hp, fun hs => hne ?_⟩
        rw [hp, hs]
  · intro p vs1 vs2
    cases p <;> rfl

/-- Witness for C8: the whitespace-identifier row is retained by stage 1. -/
theorem claim_C8_witness :
    (⟨some " ", [some 1]⟩ : Row) ∈
      (__step1__ ⟨["protein", "S1"], [⟨some " ", [some 1]⟩]⟩).rows :=
  ((claim_C8_step1 ⟨["protein", "S1"], [⟨some " ", [some 1]⟩]⟩).1 _).mpr
    ⟨by decide, by decide, by decide⟩

/-- C9: every row whose identifier is null when stage 6 runs is removed by
stage 6 (the substring predicate is null on a null identifier, and rows
with a null predicate are excluded); consequently no row reaching stage 7
after stages 5 and 6, and no group key there, is null. -/
theorem claim_C9_null_dropped (t : Table) :
    (∀ r ∈ (__step6__ t).rows, r.protein ≠ none) ∧
    (∀ r, r ∈ t.rows → r.protein = none → r ∉ (__step6__ t).rows) ∧
    (∀ r ∈ (__step7__ (__step6__ (__step5__ t))).rows, r.protein ≠ none) := by
  have key : ∀ (u : Table) (r : Row), r ∈ (__step6__ u).rows →
      r.protein ≠ none := by
    intro u r hr
    obtain ⟨s, hp, _⟩ := (keep6_eq_true_iff r).mp (List.mem_filter.mp hr).2
    rw [hp]
    simp
  refine ⟨key t, ?_, ?_⟩
  · intro r _ hpn hcon
    exact key t r hcon hpn
  · intro r hr
    obtain ⟨_, hmem⟩ := step7_rows_shape _ r hr
    obtain ⟨r6, hr6, hpr⟩ := List.mem_map.mp hmem
    rw [← hpr]
    exact key _ r6 hr6

/-- Witness for C9: a concrete null-identifier row is removed by stage 6. -/
theorem claim_C9_witness :
    (⟨none, [some 1]⟩ : Row) ∉
      (__step6__ ⟨["protein", "S1"], [⟨none, [some 1]⟩]⟩).rows :=
  (claim_C9_null_dropped ⟨["protein", "S1"], [⟨none, [some 1]⟩]⟩).2.1
    ⟨none, [some 1]⟩ (by decide) rfl

/-- C10: after stage 7 no intensity cell is null — every output cell is a
sum with null read as 0 — and a singleton group whose only intensity is
null yields 0, not null. -/
theorem claim_C10_no_null_values (t : Table) :
    (∀ r ∈ (__step7__ t).rows, ∀ v ∈ r.values, v ≠ none) ∧
    __step7__ ⟨["protein", "S1"], [⟨some "P", [none]⟩]⟩
      = ⟨["protein", "S1"], [⟨some "P", [some 0]⟩]⟩ := by
  refine ⟨?_, by rfl⟩
  intro r hr v hv
  obtain ⟨hshape, _⟩ := step7_rows_shape t r hr
  rw [hshape] at hv
  obtain ⟨j, _, hj⟩ := List.mem_map.mp hv
  rw [← hj]
  simp

/-- Witness for C10 at a concrete singleton-group table. -/
theorem claim_C10_witness : (some (0 : Int) : Option Int) ≠ none :=
  (claim_C10_no_null_values ⟨["protein", "S1"], [⟨some "P", [none]⟩]⟩).1
    ⟨some "P", [some 0]⟩ (by decide) (some 0) (by decide)

/-- C4 counterexample: on a table with zero intensity columns stage 2 does
not remove every row — it aborts with the TypeError raised by `~None`, so
the claimed all-rows-removed table is not produced. -/
theorem claim_C4_counterexample :
    __step2__ ⟨["protein"], [⟨some "P", []⟩]⟩
      = .error CleanError.step2TypeError ∧
    __step2__ ⟨["protein"], [⟨some "P", []⟩]⟩ ≠ .ok ⟨["protein"], []⟩ := by
  refine ⟨by rfl, by decide⟩

/-- C4 amended: stage 2 removes a row iff every intensity cell is null or
exactly zero (one non-null non-zero cell retains the row), and with zero
intensity columns stage 2 fails with a TypeError instead of removing every
row. -/
theorem claim_C4_step2 (t : Table) :
    (t.valueCols = [] → __step2__ t = .error CleanError.step2TypeError) ∧
    (t.valueCols ≠ [] → ∃ t2, __step2__ t = .ok t2 ∧ t2.cols = t.cols ∧
      ∀ r, r ∈ t2.rows ↔
        r ∈ t.rows ∧ ∃ v ∈ r.values, ¬(v = none ∨ v = some 0)) := by
  constructor
  · intro hvc
    unfold __step2__
    rw [if_pos (by rw [hvc]; rfl)]
  · intro hvc
    refine ⟨{ t with rows := t.rows.filter (fun r => !(allZeroOrNull r)) },
      (step2_ok_iff _ _).mpr ⟨hvc, rfl⟩, rfl, ?_⟩
    intro r
    show r ∈ t.rows.filter _ ↔ _
    rw [List.mem_filter]
    constructor
    · rintro ⟨hm, hk⟩
      rw [Bool.not_eq_true'] at hk
      exact ⟨hm, (allZeroOrNull_eq_false_iff r).mp hk⟩
    · rintro ⟨hm, hex⟩
      refine ⟨hm, ?_⟩
      rw [Bool.not_eq_true']
      exact (allZeroOrNull_eq_false_iff r).mpr hex

/-- Witness for C4's amended theorem at concrete inputs for both branches. -/
theorem claim_C4_witness :
    __step2__ ⟨["protein"], []⟩ = .error CleanError.step2TypeError :=
  (claim_C4_step2 ⟨["protein"], []⟩).1 (by rfl)

/-- C5: stage 5 rewrites exactly the rows whose identifier starts with the
literal "k77", replacing the identifier with the first capture group of
`RepID=([^\x7c]+)` — the non-empty bar-free run after the leftmost viable
"RepID=" — leaves every other row unchanged, and substitutes a null
identifier (not an error) when no such match exists. -/
theorem claim_C5_step5 (t : Table) :
    ((__step5__ t).rows
        = t.rows.map (fun r => ⟨step5Protein r.protein, r.values⟩)) ∧
    (∀ s : String, "k77".data.isPrefixOf s.data = false →
      step5Protein (some s) = some s) ∧
    (∀ s : String, "k77".data.isPrefixOf s.data = true →
      containsSubstr s "RepID=" = false → step5Protein (some s) = none) ∧
    (∀ (s : String) (cap : List Char), "k77".data.isPrefixOf s.data = true →
      extractRepID s.data = some cap →
      step5Protein (some s) = some (String.mk cap) ∧
      ∃ pre post, s.data = pre ++ "RepID=".data ++ cap ++ post ∧ cap ≠ [] ∧
        (∀ c ∈ cap, ¬ c = '|') ∧ (post = [] ∨ ∃ p2, post = '|' :: p2) ∧
        ∀ pre2 cap2 post2, s.data = pre2 ++ "RepID=".data ++ cap2 ++ post2 →
          cap2 ≠ [] → (∀ c ∈ cap2, ¬ c = '|') →
            pre.length ≤ pre2.length) ∧
    step5Protein (some "k77_cluster|RepID=ABC123|rest") = some "ABC123" := by
  refine ⟨by rfl, ?_, ?_, ?_, by rfl⟩
  · intro s hk
    simp only [step5Protein]
    rw [if_neg (by simp [hk])]
  · intro s hk hnc
    simp only [step5Protein]
    rw [if_pos hk]
    cases hex : extractRepID s.data with
    | none => rfl
    | some cap =>
      exfalso
      have hcc : containsSubstr s "RepID=" = true :=
        extractRepID_some_contains s.data cap hex
      rw [hnc] at hcc
      cases hcc
  · intro s cap hk hex
    constructor
    · simp only [step5Protein]
      rw [if_pos hk, hex]
      rfl
    · exact extractRepID_sound s.data cap hex

/-- Witness for C5: a non-k77 identifier passes through unchanged. -/
theorem claim_C5_witness :
    step5Protein (some "sp|P1") = some "sp|P1" :=
  (claim_C5_step5 ⟨["protein"], []⟩).2.1 "sp|P1" (by rfl)

/-- C6: for every input on which the pipeline succeeds, the final output's
column list is "protein" followed by the input's intensity columns (all
input columns after the first) in their original order, and the output's
intensity column set equals the input's — no stage, including the stage 7
collapse, adds, removes, renames, or reorders an intensity column.  The
`Nodup` hypothesis is the dataframe invariant that column names are
distinct. -/
theorem claim_C6_columns (raw : RawTable) (t' : Table)
    (hnd : raw.cols.Nodup) (h : pipeline raw = .ok t') :
    t'.cols = "protein" :: raw.cols.tail ∧ t'.valueCols = raw.cols.tail := by
  obtain ⟨cols, rows⟩ := raw
  have hnd2 : cols.Nodup := hnd
  cases cols with
  | nil =>
    rw [pipeline_error_of _ _ (mkClean_nil rows)] at h
    cases h
  | cons c rest =>
    show t'.cols = "protein" :: rest ∧ t'.valueCols = rest
    by_cases hcp : c = "protein"
    · have hm : mkClean ⟨c :: rest, rows⟩ = .ok ⟨"protein" :: rest, rows⟩ := by
        rw [mkClean_cons, if_pos hcp]
      rw [pipeline_ok_of _ _ hm] at h
      have hnp : "protein" ∉ rest := by
        subst hcp
        exact (List.nodup_cons.mp hnd2).1
      exact pipeline_cols_core rest rows t' hnp h
    · by_cases hpr : "protein" ∈ rest
      · have hm : mkClean ⟨c :: rest, rows⟩
            = .error CleanError.duplicateColumn := by
          rw [mkClean_cons, if_neg hcp, if_pos hpr]
        rw [pipeline_error_of _ _ hm] at h
        cases h
      · have hm : mkClean ⟨c :: rest, rows⟩ = .ok ⟨"protein" :: rest, rows⟩ := by
          rw [mkClean_cons, if_neg hcp, if_neg hpr]
        rw [pipeline_ok_of _ _ hm] at h
        exact pipeline_cols_core rest rows t' hpr h

/-- Witness for C6 at a concrete two-column input. -/
theorem claim_C6_witness :
    (⟨["protein", "S1"], [⟨some "P", [some 1]⟩]⟩ : Table).cols
        = "protein" :: (⟨["name", "S1"], [⟨some "P", [some 1]⟩]⟩
            : RawTable).cols.tail ∧
    (⟨["protein", "S1"], [⟨some "P", [some 1]⟩]⟩ : Table).valueCols
        = (⟨["name", "S1"], [⟨some "P", [some 1]⟩]⟩ : RawTable).cols.tail :=
  claim_C6_columns ⟨["name", "S1"], [⟨some "P", [some 1]⟩]⟩
    ⟨["protein", "S1"], [⟨some "P", [some 1]⟩]⟩ (by decide) (by rfl)

/-- C2: stage 7 outputs one row per distinct identifier among the surviving
rows, with the identifiers appearing in first-occurrence order (the key
list equals the spec-side stable de-duplication, is duplicate-free, has the
same members as the input key list, and is a subsequence of it — not
sorted); the intensity of each output row in each column is the sum over
its group with null read as 0; and the spec's concrete example [1,2] and
[3,null] under one identifier collapses to [4,2]. -/
theorem claim_C2_step7_grouping (t : Table) :
    ((__step7__ t).rows.map Row.protein
        = firstOccurSpec (t.rows.map Row.protein)) ∧
    ((__step7__ t).rows.map Row.protein).Nodup ∧
    (∀ k, k ∈ (__step7__ t).rows.map Row.protein ↔
      k ∈ t.rows.map Row.protein) ∧
    ((__step7__ t).rows.map Row.protein).Sublist (t.rows.map Row.protein) ∧
    (∀ r ∈ (__step7__ t).rows, ∀ j, j < t.valueCols.length →
      r.values.getD j none =
        some (((t.rows.filter (fun x => x.protein == r.protein)).map
          (fun x => (x.values.getD j none).getD 0)).sum)) ∧
    __step7__ ⟨["protein", "A", "B"],
        [⟨some "P1", [some 1, some 2]⟩, ⟨some "P1", [some 3, none]⟩]⟩
      = ⟨["protein", "A", "B"], [⟨some "P1", [some 4, some 2]⟩]⟩ := by
  refine ⟨?_, ?_, ?_, ?_, ?_, by rfl⟩
  · rw [step7_keys, firstOccur_eq_spec]
  · rw [step7_keys]
    exact firstOccurAux_nodup _ []
  · intro k
    rw [step7_keys]
    show k ∈ firstOccurAux [] _ ↔ _
    rw [mem_firstOccurAux]
    simp
  · rw [step7_keys]
    exact firstOccurAux_sublist _ []
  · intro r hr j hj
    obtain ⟨hshape, _⟩ := step7_rows_shape t r hr
    have hv : r.values = groupSum t r.protein := by rw [hshape]
    rw [hv]
    exact rangeMap_getD _ _ j hj

/-- Witness for C2: the sum formula evaluated at the concrete merged row
and the first intensity column of the spec's example. -/
theorem claim_C2_witness :
    (⟨some "P1", [some 4, some 2]⟩ : Row).values.getD 0 none =
      some ((([⟨some "P1", [some 1, some 2]⟩, ⟨some "P1", [some 3, none]⟩]
          : List Row).filter
          (fun x => x.protein == (⟨some "P1", [some 4, some 2]⟩ : Row).protein)).map
        (fun x => (x.values.getD 0 none).getD 0)).sum := by
  have h := claim_C2_step7_grouping ⟨["protein", "A", "B"],
    [⟨some "P1", [some 1, some 2]⟩, ⟨some "P1", [some 3, none]⟩]⟩
  exact h.2.2.2.2.1 ⟨some "P1", [some 4, some 2]⟩ (by decide) 0 (by decide)

/-- C3 counterexample: pipeline idempotence fails as stated.  Two rows
"P" with intensities 1 and -1 merge to "P" with 0, which a second pass
deletes in stage 2; and "k77|RepID=k77Q|" is rewritten to "k77Q", which a
second pass nulls in stage 5 and deletes in stage 6. -/
theorem claim_C3_counterexample :
    run_filters ⟨["protein", "S1"],
        [⟨some "P", [some 1]⟩, ⟨some "P", [some (-1)]⟩]⟩
      = .ok ⟨["protein", "S1"], [⟨some "P", [some 0]⟩]⟩ ∧
    run_filters ⟨["protein", "S1"], [⟨some "P", [some 0]⟩]⟩
      ≠ .ok ⟨["protein", "S1"], [⟨some "P", [some 0]⟩]⟩ ∧
    run_filters ⟨["protein", "S1"], [⟨some "k77|RepID=k77Q|", [some 1]⟩]⟩
      = .ok ⟨["protein", "S1"], [⟨some "k77Q", [some 1]⟩]⟩ ∧
    run_filters ⟨["protein", "S1"], [⟨some "k77Q", [some 1]⟩]⟩
      ≠ .ok ⟨["protein", "S1"], [⟨some "k77Q", [some 1]⟩]⟩ := by
  refine ⟨by rfl, by decide, by rfl, by decide⟩

/-- C3 amended: whenever the full pipeline succeeds, a second run on its
own output returns that output unchanged, provided every output row keeps
at least one non-null non-zero intensity (otherwise stage 2 deletes it)
and no output identifier itself starts with "k77" (otherwise stage 5
re-rewrites it).  Both as a direct second `run_filters` application and
through a fresh `pipeline` load of the output. -/
theorem claim_C3_idempotent_amended (t t' : Table)
    (h : run_filters t = .ok t')
    (hnz : ∀ r ∈ t'.rows, ∃ v ∈ r.values, ¬(v = none ∨ v = some 0))
    (hk : ∀ r ∈ t'.rows, ∀ s, r.protein = some s →
      "k77".data.isPrefixOf s.data = false) :
    run_filters t' = .ok t' ∧ pipeline t'.toRaw = .ok t' := by
  obtain ⟨hinv, hvals, hnodup, hcols, hvc⟩ := run_filters_out t t' h
  have hnz' : ∀ r ∈ t'.rows, allZeroOrNull r = false := by
    intro r hr
    exact (allZeroOrNull_eq_false_iff r).mpr (hnz r hr)
  have h1 : __step1__ t' = t' := step1_id t' hinv
  have h2 : __step2__ t' = .ok t' := step2_id t' hvc hnz'
  have h3 : __step3__ t' = t' := step3_id t' hinv
  have h4 : __step4__ t' = t' := step4_id t' hinv
  have h5 : __step5__ t' = t' := step5_id t' hk
  have h6 : __step6__ t' = t' := step6_id t' hinv
  have h7 : __step7__ t' = t' := step7_id t' hnodup hcols hvals
  have hrun : run_filters t' = .ok t' := by
    unfold run_filters
    rw [h1, h2]
    show Except.ok
        (__step7__ (__step6__ (__step5__ (__step4__ (__step3__ t'))))) = _
    rw [h3, h4, h5, h6, h7]
  refine ⟨hrun, ?_⟩
  have hm : mkClean t'.toRaw = .ok t' := by
    show mkClean ⟨t'.cols, t'.rows⟩ = .ok t'
    rw [hcols, mkClean_cons, if_pos rfl, ← hcols]
  rw [pipeline_ok_of _ _ hm]
  exact hrun

/-- Witness for C3's amended theorem: the scenario output, one row "Q1"
with [5,5], is a fixed point of a second full run. -/
theorem claim_C3_witness :
    run_filters ⟨["protein", "S1", "S2"], [⟨some "Q1", [some 5, some 5]⟩]⟩
      = .ok ⟨["protein", "S1", "S2"], [⟨some "Q1", [some 5, some 5]⟩]⟩ :=
  (claim_C3_idempotent_amended scenarioTable
    ⟨["protein", "S1", "S2"], [⟨some "Q1", [some 5, some 5]⟩]⟩
    (by rfl) (by decide)
    (by
      intro r hr s hp
      have hr2 : r = ⟨some "Q1", [some 5, some 5]⟩ := List.mem_singleton.mp hr
      rw [hr2] at hp
      injection hp with hs
      rw [← hs]
      rfl)).1
